import Mathlib

/-!
Verification of the `ndp` package (IPv6 Neighbor Discovery Protocol codec).

This file shallowly embeds the Go source of the repository in Lean 4 and
proves properties of the embedded code.  Byte slices are modelled as
`List Nat` whose entries are byte values; machine `uint8` arithmetic is
made explicit with `% 256`.  Go functions that can fail return `Except`;
Go functions that can additionally hit a run-time panic (out-of-range
slice expression, `make` with a negative length) return `GoResult`, whose
`panics` constructor records the panic.  Slice expressions are modelled
with capacity equal to length, i.e. for a buffer that is a fresh exact
allocation.

Sources embedded here:
- the option codec (`RawOption`, `LinkLayerAddress`, `marshalOptions`,
  `parseOptions`) from `cmd/ndpctl/main.go`;
- the message codec (`NeighborAdvertisement`, `MarshalMessage`,
  `ParseMessage`, `checkIPv6`) from `message.go`;
- the connection helpers (`linkLocalAddr`, `Dial`) from the `conn.go`
  text embedded in `CHANGELOG.md`, together with the parts of the Go
  standard library they use (`net.IP.To4`, `net.IP.To16`,
  `net.IPNet.Contains`, the built-in `copy`).
-/

set_option maxRecDepth 8192

deriving instance DecidableEq for Except

namespace Ndp

/-- Error values produced by the embedded code, one constructor per
distinct Go error construction site. -/
inductive NdpError where
  | errUnexpectedEOF
  | invalidIPv6 (ip : List Nat)
  | unrecognizedType (t : Nat)
  | invalidDirection (d : Nat)
  | badLLAOptLen (l : Nat)
  | invalidLinkLayerAddr (addr : List Nat)
  | noLinkLocalAddr (ifi : String)
deriving DecidableEq, Repr

/-- Result of a Go computation that may return an error value or hit a
run-time panic.  `panics` is reached exactly where the embedded Go code
would panic at run time. -/
inductive GoResult (α : Type) where
  | ok (a : α)
  | error (e : NdpError)
  | panics (msg : String)
deriving DecidableEq, Repr

/-- The Go built-in `copy(dst, src)`: the result replaces the first
`min (dst.length) (src.length)` entries of `dst` with those of `src` and
keeps the rest of `dst`. -/
def goCopy (dst src : List Nat) : List Nat :=
  src.take dst.length ++ dst.drop (min dst.length src.length)

/-- Embeds `net.IP.To4` returning non-nil: true for a 4-byte address and
for a 16-byte IPv4-mapped address (ten zero bytes, then `0xff 0xff`). -/
def goTo4IsSome (ip : List Nat) : Bool :=
  ip.length == 4 ||
    (ip.length == 16 && (ip.take 10).all (· == 0) &&
      ip.getD 10 0 == 255 && ip.getD 11 0 == 255)

/-- Embeds `net.IP.To4` on inputs where it is non-nil: the 4-byte form. -/
def goTo4 (ip : List Nat) : List Nat :=
  if ip.length == 4 then ip else ip.drop 12

/-- Embeds `net.IP.To16` returning non-nil: true for 4- and 16-byte
addresses. -/
def goTo16IsSome (ip : List Nat) : Bool :=
  ip.length == 4 || ip.length == 16

/-- Embeds `checkIPv6` from `message.go`: an address passes iff
`ip.To16() != nil` and `ip.To4() == nil`.  Returns true when the address
is accepted; call sites produce the `invalidIPv6` error otherwise. -/
def checkIPv6 (ip : List Nat) : Bool :=
  goTo16IsSome ip && !goTo4IsSome ip

/-- A NeighborAdvertisement message (`message.go`).  `TargetAddress`
models the `net.IP` byte slice. -/
structure NeighborAdvertisement where
  Router : Bool
  Solicited : Bool
  Override : Bool
  TargetAddress : List Nat
deriving DecidableEq, Repr

/-- Embeds `NeighborAdvertisement.MarshalBinary`: validate the target
with `checkIPv6`, allocate 20 zero bytes, or the R/S/O flag bits into
byte 0 and copy the target address into bytes 4 and later. -/
def NeighborAdvertisement.marshalBinary (na : NeighborAdvertisement) :
    Except NdpError (List Nat) :=
  if checkIPv6 na.TargetAddress then
    let flags : Nat :=
      (if na.Router then 128 else 0) |||
        (if na.Solicited then 64 else 0) |||
        (if na.Override then 32 else 0)
    let b := (List.replicate 20 0).set 0 flags
    .ok (b.take 4 ++ goCopy (b.drop 4) na.TargetAddress)
  else
    .error (.invalidIPv6 na.TargetAddress)

/-- Embeds `NeighborAdvertisement.UnmarshalBinary`: require 20 bytes,
validate bytes 4..19 with `checkIPv6`, read the R/S/O flags from bits
7, 6 and 5 of byte 0 and copy the target into a fresh 16-byte slice. -/
def NeighborAdvertisement.unmarshalBinary (b : List Nat) :
    Except NdpError NeighborAdvertisement :=
  if b.length < 20 then
    .error .errUnexpectedEOF
  else
    let addr := (b.drop 4).take 16
    if checkIPv6 addr then
      .ok { Router := (b.getD 0 0) &&& 128 != 0
            Solicited := (b.getD 0 0) &&& 64 != 0
            Override := (b.getD 0 0) &&& 32 != 0
            TargetAddress := goCopy (List.replicate 16 0) addr }
    else
      .error (.invalidIPv6 addr)

/-- Embeds `MarshalMessage`: marshal the message body, then prepend the
4-byte ICMPv6 header produced by `icmp.Message.Marshal(nil)` - the type
byte (136 for a NeighborAdvertisement), code 0 and a zero checksum that
the caller or kernel is expected to fill in. -/
def MarshalMessage (na : NeighborAdvertisement) : Except NdpError (List Nat) :=
  match na.marshalBinary with
  | .error e => .error e
  | .ok mb => .ok ([136, 0, 0, 0] ++ mb)

/-- Embeds `ParseMessage`: require 4 bytes, dispatch on the leading
ICMPv6 type byte (only 136, NeighborAdvertisement, is wired up; every
other value takes the default branch) and unmarshal from byte 4 on. -/
def ParseMessage (b : List Nat) : Except NdpError NeighborAdvertisement :=
  if b.length < 4 then
    .error .errUnexpectedEOF
  else
    let t := b.getD 0 0
    if t == 136 then
      match NeighborAdvertisement.unmarshalBinary (b.drop 4) with
      | .error e => .error e
      | .ok m => .ok m
    else
      .error (.unrecognizedType t)

/-- A raw, unprocessed NDP option (`cmd/ndpctl/main.go`).  The fields
model the Go `uint8` values `Type` and `Length` and the `Value` byte
slice. -/
structure RawOption where
  «Type» : Nat
  Length : Nat
  Value : List Nat
deriving DecidableEq, Repr

/-- A Source or Target Link-Layer Address option
(`cmd/ndpctl/main.go`).  `Direction` models the Go `int`; its valid
values are `Source = 1` and `Target = 2`. -/
structure LinkLayerAddress where
  Direction : Nat
  Addr : List Nat
deriving DecidableEq, Repr

/-- Embeds `RawOption.MarshalBinary`.  The Go code computes
`l := int(u.Length * 8)` in `uint8` arithmetic, so the product wraps
modulo 256; it then requires `1+1+len(u.Value) == l`, allocates
`u.Length*8` (again `uint8`) zero bytes, writes the type and length
bytes and copies the value in from offset 2. -/
def RawOption.marshalBinary (u : RawOption) : Except NdpError (List Nat) :=
  let l := u.Length * 8 % 256
  if 1 + 1 + u.Value.length != l then
    .error .errUnexpectedEOF
  else
    let b := ((List.replicate (u.Length * 8 % 256) 0).set 0 u.«Type»).set 1 u.Length
    .ok (b.take 2 ++ goCopy (b.drop 2) u.Value)

/-- Embeds `RawOption.UnmarshalBinary`.  The Go code requires two bytes,
reads the type and length, computes `l := int(u.Length*8) - 2` (the
`uint8` product wraps modulo 256 before the subtraction, so `l` can be
`-2`), returns `io.ErrUnexpectedEOF` when `l` exceeds the remaining
bytes, and then evaluates `make([]byte, l)` - which panics at run time
when `l` is negative - and copies the value bytes. -/
def RawOption.unmarshalBinary (b : List Nat) : GoResult RawOption :=
  if b.length < 2 then
    .error .errUnexpectedEOF
  else
    let ty := b.getD 0 0
    let len := b.getD 1 0
    let l : Int := (len * 8 % 256 : Nat) - 2
    if l > (b.length : Int) - 2 then
      .error .errUnexpectedEOF
    else if l < 0 then
      .panics "runtime error: makeslice: len out of range"
    else
      .ok ⟨ty, len, goCopy (List.replicate l.toNat 0) (b.drop 2)⟩

/-- Embeds `LinkLayerAddress.MarshalBinary` (the `cmd/ndpctl/main.go`
version): validate the direction and the 6-byte address, then marshal
through a `RawOption` with type `code()`, length 1 and the address as
value.  `byte(lla.Direction)` truncates the Go `int` modulo 256. -/
def LinkLayerAddress.marshalBinary (lla : LinkLayerAddress) :
    Except NdpError (List Nat) :=
  if lla.Direction != 1 && lla.Direction != 2 then
    .error (.invalidDirection lla.Direction)
  else if lla.Addr.length != 6 then
    .error (.invalidLinkLayerAddr lla.Addr)
  else
    RawOption.marshalBinary ⟨lla.Direction % 256, 1, lla.Addr⟩

/-- Embeds `LinkLayerAddress.UnmarshalBinary` (the `cmd/ndpctl/main.go`
version): unmarshal a `RawOption`, then require a Source or Target
direction and option length 1. -/
def LinkLayerAddress.unmarshalBinary (b : List Nat) :
    GoResult LinkLayerAddress :=
  match RawOption.unmarshalBinary b with
  | .error e => .error e
  | .panics m => .panics m
  | .ok raw =>
    if raw.«Type» != 1 && raw.«Type» != 2 then
      .error (.invalidDirection raw.«Type»)
    else if raw.Length != 1 then
      .error (.badLLAOptLen raw.Length)
    else
      .ok ⟨raw.«Type», raw.Value⟩

/-- An NDP option value: the dynamic type behind the Go `Option`
interface is either a `LinkLayerAddress` or a `RawOption`. -/
inductive NdpOption where
  | lla (o : LinkLayerAddress)
  | raw (o : RawOption)
deriving DecidableEq, Repr

/-- Marshal dispatch on the dynamic option type. -/
def NdpOption.marshalBinary : NdpOption → Except NdpError (List Nat)
  | .lla o => o.marshalBinary
  | .raw o => o.marshalBinary

/-- Embeds `marshalOptions`: marshal each option in order and
concatenate, stopping at the first error. -/
def marshalOptions : List NdpOption → Except NdpError (List Nat)
  | [] => .ok []
  | o :: os =>
    match o.marshalBinary with
    | .error e => .error e
    | .ok ob =>
      match marshalOptions os with
      | .error e => .error e
      | .ok bs => .ok (ob ++ bs)

/-- Loop body of `parseOptions`, recursing on the unread suffix
`b[i:]` with explicit fuel.  One Go loop iteration: stop on an empty
suffix; require two header bytes; read the type and the length
(expanded to bytes as `int(b[i+1]) * 8`, plain `int` arithmetic);
evaluate the slice expression `b[i : i+l]`, which panics when `i+l`
exceeds the capacity of `b` (equal to its length here); dispatch on the
type (1 and 2 to `LinkLayerAddress`, the default to `RawOption`) and
unmarshal the slice; re-check `l` against the remaining bytes (dead
under this capacity model); advance by `l` bytes.  Each iteration that
recurses consumes at least two bytes, so fuel `b.length + 1` never runs
out when starting from `parseOptions`. -/
def parseOptionsGo : Nat → List Nat → GoResult (List NdpOption)
  | 0, _ => .panics "fuel exhausted"
  | _ + 1, [] => .ok []
  | fuel + 1, b =>
    if b.length < 2 then
      .error .errUnexpectedEOF
    else
      let t := b.getD 0 0
      let l := b.getD 1 0 * 8
      if b.length < l then
        .panics "runtime error: slice bounds out of range"
      else
        let res : GoResult NdpOption :=
          if t == 1 || t == 2 then
            match LinkLayerAddress.unmarshalBinary (b.take l) with
            | .error e => .error e
            | .panics m => .panics m
            | .ok o => .ok (.lla o)
          else
            match RawOption.unmarshalBinary (b.take l) with
            | .error e => .error e
            | .panics m => .panics m
            | .ok o => .ok (.raw o)
        match res with
        | .error e => .error e
        | .panics m => .panics m
        | .ok o =>
          if b.length < l then
            .error .errUnexpectedEOF
          else
            match parseOptionsGo fuel (b.drop l) with
            | .error e => .error e
            | .panics m => .panics m
            | .ok os => .ok (o :: os)

/-- Embeds `parseOptions`: run the loop from offset 0. -/
def parseOptions (b : List Nat) : GoResult (List NdpOption) :=
  parseOptionsGo (b.length + 1) b

/-- One entry of the list returned by `net.Interface.Addrs`: either a
`*net.IPNet` carrying an IP byte slice, or some other `net.Addr`
implementation, which `linkLocalAddr` skips. -/
inductive GoNetAddr where
  | ipNet (ip : List Nat)
  | other
deriving DecidableEq, Repr

/-- The IP bytes of `linkLocalPrefix`, `net.ParseIP("fe80::")`. -/
def linkLocalPrefixIP : List Nat :=
  [0xfe, 0x80, 0, 0, 0, 0, 0, 0, 0, 0, 0, 0, 0, 0, 0, 0]

/-- The mask bytes of `linkLocalPrefix`, `net.CIDRMask(10, 128)`. -/
def linkLocalPrefixMask : List Nat :=
  [0xff, 0xc0, 0, 0, 0, 0, 0, 0, 0, 0, 0, 0, 0, 0, 0, 0]

/-- Embeds `net.IPNet.Contains` for a network given by address bytes
`nn` and mask bytes `mask`: reduce the queried address to 4 bytes when
`To4` is non-nil, require equal lengths, and compare all bytes under
the mask. -/
def ipNetContains (nn mask ip0 : List Nat) : Bool :=
  let ip := if goTo4IsSome ip0 then goTo4 ip0 else ip0
  ip.length == nn.length &&
    (List.range nn.length).all
      (fun i => nn.getD i 0 &&& mask.getD i 0 == ip.getD i 0 &&& mask.getD i 0)

/-- Embeds `linkLocalAddr` (the `conn.go` text in `CHANGELOG.md`): walk
the interface addresses in order, skip entries that are not a
`*net.IPNet`, skip addresses rejected by `checkIPv6` or outside
`fe80::/10`, and return the first remaining address paired with the
interface name as zone; with no match, fail with the no-link-local
error. -/
def linkLocalAddr (ifiName : String) :
    List GoNetAddr → Except NdpError (List Nat × String)
  | [] => .error (.noLinkLocalAddr ifiName)
  | .other :: rest => linkLocalAddr ifiName rest
  | .ipNet ip :: rest =>
    if !checkIPv6 ip then
      linkLocalAddr ifiName rest
    else if !ipNetContains linkLocalPrefixIP linkLocalPrefixMask ip then
      linkLocalAddr ifiName rest
    else
      .ok (ip, ifiName)

/-- The `Conn` state assembled by `Dial`: the default control message
(hop limit always 255, source the chosen link-local address, the
interface index) and the zone of the all-nodes multicast address. -/
structure Conn where
  cmHopLimit : Nat
  cmSrc : List Nat
  cmIfIndex : Int
  allNodesZone : String
deriving DecidableEq, Repr

/-- Embeds `Dial` (the `conn.go` text in `CHANGELOG.md`).  The three
socket operations - `icmp.ListenPacket`, `JoinGroup` and
`SetChecksum` - are I/O against the host; their outcomes are passed in
as parameters (`none` for success), and `Dial` propagates the first
failure in the same order as the code.  On success it returns the
`Conn` and the link-local IP. -/
def Dial (ifiName : String) (ifiIndex : Int) (addrs : List GoNetAddr)
    (listenErr joinErr checksumErr : Option NdpError) :
    Except NdpError (Conn × List Nat) :=
  match linkLocalAddr ifiName addrs with
  | .error e => .error e
  | .ok (ip, _zone) =>
    match listenErr with
    | some e => .error e
    | none =>
      match joinErr with
      | some e => .error e
      | none =>
        match checksumErr with
        | some e => .error e
        | none => .ok (⟨255, ip, ifiIndex, ifiName⟩, ip)

/-- Statement vocabulary: the IPv4-mapped byte pattern of a 16-byte
address - ten zero bytes followed by `0xff 0xff`. -/
def isIPv4Mapped (ip : List Nat) : Bool :=
  (ip.take 10).all (· == 0) && ip.getD 10 0 == 255 && ip.getD 11 0 == 255

/-- Statement vocabulary: the well-formedness notion of claim C1 - a
`LinkLayerAddress` with direction Source (1) or Target (2) and a 6-byte
address, or a `RawOption` whose fields satisfy
`2 + len(Value) == Length*8`. -/
def wellFormedOption : NdpOption → Bool
  | .lla o => (o.Direction == 1 || o.Direction == 2) && o.Addr.length == 6
  | .raw u => 2 + u.Value.length == u.Length * 8

/-- Statement vocabulary: the amended well-formedness notion for the
option round trip.  A `RawOption` additionally needs a type outside the
link-layer-address range (1, 2), so that parsing dispatches back to
`RawOption`, and `Length ≤ 31`, so that the `uint8` product
`Length * 8` does not wrap. -/
def wellFormedOptionAmended : NdpOption → Bool
  | .lla o => (o.Direction == 1 || o.Direction == 2) && o.Addr.length == 6
  | .raw u =>
    (2 + u.Value.length == u.Length * 8) && decide (u.Length ≤ 31) &&
      u.«Type» != 1 && u.«Type» != 2

/-- Statement vocabulary for claim C9: an interface address entry
qualifies when it is a `*net.IPNet` carrying a 16-byte,
non-IPv4-mapped IPv6 address inside `fe80::/10` (first byte `0xfe`,
top two bits of the second byte `10`). -/
def qualifiesLinkLocal : GoNetAddr → Bool
  | .ipNet ip =>
    (ip.length == 16 && !isIPv4Mapped ip) && ip.getD 0 0 == 0xfe &&
      (ip.getD 1 0 &&& 0xc0) == 0x80
  | .other => false

/-- One interface address carries byte values below 256, as every real
`net.IP` does. -/
def goNetAddrBytesOK : GoNetAddr → Bool
  | .ipNet ip => ip.all fun x => decide (x < 256)
  | .other => true

/-- All interface addresses carry byte values below 256; theorems about
address selection assume it. -/
def addrBytesOK (addrs : List GoNetAddr) : Bool :=
  addrs.all goNetAddrBytesOK

/-!
Helper lemmas shared by the claim theorems below.
-/

theorem goCopy_of_length_eq {dst src : List Nat} (h : src.length = dst.length) :
    goCopy dst src = src := by
  unfold goCopy
  rw [← h, List.take_length, min_comm, Nat.min_def]
  simp [h]

theorem checkIPv6_eq (ip : List Nat) :
    checkIPv6 ip = (ip.length == 16 && !isIPv4Mapped ip) := by
  unfold checkIPv6 goTo16IsSome goTo4IsSome isIPv4Mapped
  by_cases h4 : ip.length = 4
  · have h16 : ip.length ≠ 16 := by omega
    simp [h4, h16]
  · have e4 : (ip.length == 4) = false := by simp [h4]
    by_cases h16 : ip.length = 16
    · simp [e4, h16]
    · have e16 : (ip.length == 16) = false := by simp [h16]
      simp [e4, e16]

theorem checkIPv6_true_iff (ip : List Nat) :
    checkIPv6 ip = true ↔ ip.length = 16 ∧ isIPv4Mapped ip = false := by
  rw [checkIPv6_eq]
  simp

theorem checkIPv6_length {ip : List Nat} (h : checkIPv6 ip = true) :
    ip.length = 16 :=
  ((checkIPv6_true_iff ip).mp h).1

theorem na_marshal_ok (R S O : Bool) (tgt : List Nat)
    (h : checkIPv6 tgt = true) :
    NeighborAdvertisement.marshalBinary ⟨R, S, O, tgt⟩ =
      .ok (((if R then 128 else 0) ||| (if S then 64 else 0) |||
        (if O then 32 else 0)) :: 0 :: 0 :: 0 :: tgt) := by
  have h16 : tgt.length = 16 := checkIPv6_length h
  have hcopy : goCopy (List.replicate 16 0) tgt = tgt :=
    goCopy_of_length_eq (by simp [h16])
  unfold NeighborAdvertisement.marshalBinary
  simp only [h, if_true]
  show Except.ok ((((List.replicate 20 0).set 0 _).take 4) ++ goCopy (((List.replicate 20 0).set 0 _).drop 4) tgt) = _
  rw [show ∀ f : Nat, (List.replicate 20 0).set 0 f = f :: List.replicate 19 0 from fun _ => rfl]
  rw [show ∀ f : Nat, (f :: List.replicate 19 0).take 4 = [f, 0, 0, 0] from fun _ => rfl]
  rw [show ∀ f : Nat, (f :: List.replicate 19 0).drop 4 = List.replicate 16 0 from fun _ => rfl]
  rw [hcopy]
  rfl

theorem na_unmarshal_ok (b : List Nat) (h20 : 20 ≤ b.length)
    (hc : checkIPv6 ((b.drop 4).take 16) = true) :
    NeighborAdvertisement.unmarshalBinary b =
      .ok ⟨(b.getD 0 0) &&& 128 != 0, (b.getD 0 0) &&& 64 != 0,
        (b.getD 0 0) &&& 32 != 0, (b.drop 4).take 16⟩ := by
  have hlen : ((b.drop 4).take 16).length = 16 := by
    simp [List.length_take, List.length_drop]
    omega
  have hcopy : goCopy (List.replicate 16 0) ((b.drop 4).take 16) = (b.drop 4).take 16 :=
    goCopy_of_length_eq (by simp [hlen])
  unfold NeighborAdvertisement.unmarshalBinary
  have hnl : ¬(b.length < 20) := by omega
  simp only [hnl, if_false, hc, if_true, hcopy]

theorem exists_cons_of_length_succ {l : List Nat} {n : Nat} (h : l.length = n + 1) :
    ∃ x xs, l = x :: xs ∧ xs.length = n := by
  cases l with
  | nil => simp at h
  | cons x xs => exact ⟨x, xs, rfl, by simpa using h⟩

theorem parseOptionsGo_nil (fuel : Nat) (h : 1 ≤ fuel) :
    parseOptionsGo fuel [] = .ok [] := by
  cases fuel with
  | zero => omega
  | succ f => rfl

theorem raw_unmarshal_exact (t L : Nat) (v : List Nat)
    (h2 : 2 + v.length = L * 8 % 256) :
    RawOption.unmarshalBinary (t :: L :: v) = .ok ⟨t, L, v⟩ := by
  unfold RawOption.unmarshalBinary
  have hc1 : ¬((t :: L :: v).length < 2) := by simp
  rw [if_neg hc1]
  simp only [List.getD_cons_succ, List.getD_cons_zero]
  have hc2 : ¬(((L * 8 % 256 : Nat) : Int) - 2 > ((t :: L :: v).length : Int) - 2) := by
    simp only [List.length_cons]
    push_cast
    omega
  rw [if_neg hc2]
  have hc3 : ¬(((L * 8 % 256 : Nat) : Int) - 2 < 0) := by push_cast; omega
  rw [if_neg hc3]
  have htn : (((L * 8 % 256 : Nat) : Int) - 2).toNat = v.length := by
    push_cast
    omega
  rw [htn]
  have hdrop : (t :: L :: v).drop 2 = v := rfl
  rw [hdrop, goCopy_of_length_eq (by simp)]

theorem raw_marshal_ok (t L : Nat) (v : List Nat)
    (h2 : 2 + v.length = L * 8 % 256) :
    RawOption.marshalBinary ⟨t, L, v⟩ = .ok (t :: L :: v) := by
  unfold RawOption.marshalBinary
  dsimp only
  have hg : ¬((1 + 1 + v.length != L * 8 % 256) = true) := by
    simp only [bne_iff_ne]
    omega
  rw [if_neg hg]
  have hrep : L * 8 % 256 = v.length + 2 := by omega
  rw [hrep]
  have hb : ((List.replicate (v.length + 2) 0).set 0 t).set 1 L =
      t :: L :: List.replicate v.length 0 := by
    rw [show v.length + 2 = (v.length + 1) + 1 from rfl, List.replicate_succ,
      List.replicate_succ, List.set_cons_zero, List.set_cons_succ, List.set_cons_zero]
  rw [hb]
  have htake : (t :: L :: List.replicate v.length 0).take 2 = [t, L] := rfl
  have hdrop : (t :: L :: List.replicate v.length 0).drop 2 = List.replicate v.length 0 := rfl
  rw [htake, hdrop, goCopy_of_length_eq (by simp)]
  rfl

theorem lla_marshal_ok (d : Nat) (addr : List Nat) (hd : d = 1 ∨ d = 2)
    (h6 : addr.length = 6) :
    LinkLayerAddress.marshalBinary ⟨d, addr⟩ = .ok (d :: 1 :: addr) := by
  have h8 : 2 + addr.length = 1 * 8 % 256 := by omega
  rcases hd with rfl | rfl <;>
  · unfold LinkLayerAddress.marshalBinary
    dsimp only
    rw [if_neg (by decide)]
    rw [if_neg (show ¬((addr.length != 6) = true) by simp [h6])]
    exact raw_marshal_ok _ 1 addr h8

theorem lla_unmarshal_exact (d : Nat) (addr : List Nat) (hd : d = 1 ∨ d = 2)
    (h6 : addr.length = 6) :
    LinkLayerAddress.unmarshalBinary (d :: 1 :: addr) = .ok ⟨d, addr⟩ := by
  have h8 : 2 + addr.length = 1 * 8 % 256 := by omega
  unfold LinkLayerAddress.unmarshalBinary
  rw [raw_unmarshal_exact d 1 addr h8]
  dsimp only
  rcases hd with rfl | rfl <;> rfl

set_option maxHeartbeats 2000000 in
theorem parse_single_lla (d : Nat) (addr : List Nat) (hd : d = 1 ∨ d = 2)
    (h6 : addr.length = 6) :
    parseOptions (d :: 1 :: addr) = .ok [.lla ⟨d, addr⟩] := by
  obtain ⟨a1, addr1, rfl, h5⟩ := exists_cons_of_length_succ h6
  obtain ⟨a2, addr2, rfl, h4⟩ := exists_cons_of_length_succ h5
  obtain ⟨a3, addr3, rfl, h3⟩ := exists_cons_of_length_succ h4
  obtain ⟨a4, addr4, rfl, hh2⟩ := exists_cons_of_length_succ h3
  obtain ⟨a5, addr5, rfl, hh1⟩ := exists_cons_of_length_succ hh2
  obtain ⟨a6, addr6, rfl, hh0⟩ := exists_cons_of_length_succ hh1
  have hnil : addr6 = [] := List.length_eq_zero.mp hh0
  subst hnil
  rcases hd with rfl | rfl <;> rfl

theorem parse_single_raw (t L : Nat) (v : List Nat)
    (ht1 : t ≠ 1) (ht2 : t ≠ 2) (hL : 1 ≤ L) (hL31 : L ≤ 31)
    (h2 : 2 + v.length = L * 8) :
    parseOptions (t :: L :: v) = .ok [.raw ⟨t, L, v⟩] := by
  have hmod : L * 8 % 256 = L * 8 := Nat.mod_eq_of_lt (by omega)
  have hlen : (t :: L :: v).length = L * 8 := by simp; omega
  have hc1 : ¬((t :: L :: v).length < 2) := by simp
  have hc2 : ¬((t :: L :: v).length < L * 8) := by omega
  unfold parseOptions
  simp only [parseOptionsGo]
  rw [if_neg hc1]
  simp only [List.getD_cons_succ, List.getD_cons_zero]
  rw [if_neg hc2]
  rw [List.take_of_length_le (le_of_eq hlen)]
  have hdisp : (t == 1 || t == 2) = false := by simp [ht1, ht2]
  rw [hdisp]
  simp only [Bool.false_eq_true, if_false]
  rw [raw_unmarshal_exact t L v (by omega)]
  dsimp only
  rw [if_neg hc2]
  rw [List.drop_of_length_le (le_of_eq hlen)]
  rw [parseOptionsGo_nil _ (by simp)]

theorem land255_of_lt {x : Nat} (h : x < 256) : x &&& 255 = x := by
  have hall : ∀ y, y < 256 → y &&& 255 = y := by decide
  exact hall x h

theorem getD_zero_lt_256 {l : List Nat}
    (hb : l.all (fun x => decide (x < 256)) = true) : l.getD 0 0 < 256 := by
  cases l with
  | nil => simp
  | cons a t =>
    simp only [List.all_cons, Bool.and_eq_true, decide_eq_true_eq] at hb
    simpa using hb.1

theorem contains_ll_iff (ip : List Nat)
    (hto4 : goTo4IsSome ip = false) (h16 : ip.length = 16)
    (h0 : ip.getD 0 0 < 256) :
    ipNetContains linkLocalPrefixIP linkLocalPrefixMask ip = true ↔
      (ip.getD 0 0 = 0xfe ∧ ip.getD 1 0 &&& 0xc0 = 0x80) := by
  unfold ipNetContains
  rw [hto4]
  rw [if_neg (by simp)]
  rw [show linkLocalPrefixIP.length = 16 from rfl]
  rw [show (List.range 16) = [0,1,2,3,4,5,6,7,8,9,10,11,12,13,14,15] from rfl]
  simp only [List.all_cons, List.all_nil]
  simp [h16] at h0
  simp [linkLocalPrefixIP, linkLocalPrefixMask, Nat.and_zero, Nat.zero_and, h16]
  rw [show (254:Nat) &&& 255 = 254 from rfl, show (128:Nat) &&& 192 = 128 from rfl,
    land255_of_lt h0]
  constructor <;> (rintro ⟨ha, hb2⟩; exact ⟨ha.symm, hb2.symm⟩)

theorem qualifies_iff_guard (ip : List Nat)
    (hb : ip.all (fun x => decide (x < 256)) = true) :
    qualifiesLinkLocal (.ipNet ip) = true ↔
      (checkIPv6 ip = true ∧
        ipNetContains linkLocalPrefixIP linkLocalPrefixMask ip = true) := by
  have h0 : ip.getD 0 0 < 256 := getD_zero_lt_256 hb
  constructor
  · intro hq
    unfold qualifiesLinkLocal at hq
    simp only [Bool.and_eq_true, beq_iff_eq] at hq
    obtain ⟨⟨hpre, h0q⟩, h1q⟩ := hq
    have hc : checkIPv6 ip = true :=
      (checkIPv6_true_iff ip).mpr ⟨hpre.1, by simpa using hpre.2⟩
    have hto4 : goTo4IsSome ip = false := by
      unfold checkIPv6 at hc
      simp only [Bool.and_eq_true] at hc
      simpa using hc.2
    refine ⟨hc, (contains_ll_iff ip hto4 (checkIPv6_length hc) h0).mpr ⟨h0q, h1q⟩⟩
  · rintro ⟨hc, hcont⟩
    have hto4 : goTo4IsSome ip = false := by
      unfold checkIPv6 at hc
      simp only [Bool.and_eq_true] at hc
      simpa using hc.2
    have h16 := checkIPv6_length hc
    obtain ⟨h0q, h1q⟩ := (contains_ll_iff ip hto4 h16 h0).mp hcont
    have hmap : isIPv4Mapped ip = false := ((checkIPv6_true_iff ip).mp hc).2
    unfold qualifiesLinkLocal
    simp only [Bool.and_eq_true, beq_iff_eq]
    exact ⟨⟨⟨h16, by simp [hmap]⟩, h0q⟩, h1q⟩

/-!
Claim theorems.
-/

/-- C1, counterexample: the claim as stated is false.  The RawOption
with type 1, length 1 and a 6-byte zero value is well-formed in the
sense of the claim and marshals successfully, but parsing the
serialization dispatches on the type byte 1 and returns a
LinkLayerAddress, not the original RawOption. -/
theorem c1_option_roundtrip_counterexample :
    wellFormedOption (.raw ⟨1, 1, [0, 0, 0, 0, 0, 0]⟩) = true ∧
    marshalOptions [.raw ⟨1, 1, [0, 0, 0, 0, 0, 0]⟩] = .ok [1, 1, 0, 0, 0, 0, 0, 0] ∧
    parseOptions [1, 1, 0, 0, 0, 0, 0, 0] = .ok [.lla ⟨1, [0, 0, 0, 0, 0, 0]⟩] ∧
    parseOptions [1, 1, 0, 0, 0, 0, 0, 0] ≠ .ok [.raw ⟨1, 1, [0, 0, 0, 0, 0, 0]⟩] := by
  decide

/-- C1, amended: for every well-formed option whose RawOption type lies
outside the link-layer-address range {1, 2} and whose Length stays
below 32 (so the uint8 product Length*8 does not wrap), parsing the
serialization of the one-element list yields exactly that list. -/
theorem c1_option_roundtrip_amended (o : NdpOption)
    (h : wellFormedOptionAmended o = true) :
    ∃ bs, marshalOptions [o] = .ok bs ∧ parseOptions bs = .ok [o] := by
  cases o with
  | lla o =>
    obtain ⟨d, addr⟩ := o
    unfold wellFormedOptionAmended at h
    simp only [Bool.and_eq_true, Bool.or_eq_true, beq_iff_eq] at h
    obtain ⟨hd, h6⟩ := h
    refine ⟨d :: 1 :: addr, ?_, parse_single_lla d addr hd h6⟩
    unfold marshalOptions NdpOption.marshalBinary
    dsimp only
    rw [lla_marshal_ok d addr hd h6]
    simp [marshalOptions]
  | raw u =>
    obtain ⟨t, L, v⟩ := u
    unfold wellFormedOptionAmended at h
    simp only [Bool.and_eq_true, beq_iff_eq, bne_iff_ne, decide_eq_true_eq] at h
    obtain ⟨⟨⟨h2, hL31⟩, ht1⟩, ht2⟩ := h
    have hL1 : 1 ≤ L := by omega
    have hmod : L * 8 % 256 = L * 8 := Nat.mod_eq_of_lt (by omega)
    refine ⟨t :: L :: v, ?_, parse_single_raw t L v ht1 ht2 hL1 hL31 h2⟩
    unfold marshalOptions NdpOption.marshalBinary
    dsimp only
    rw [raw_marshal_ok t L v (by rw [hmod]; exact h2)]
    simp [marshalOptions]

/-- C1, witness: the amended round trip evaluated at a concrete
RawOption with type 10 and length 2. -/
theorem c1_option_roundtrip_amended_witness :
    ∃ bs, marshalOptions [.raw ⟨10, 2, List.replicate 14 0⟩] = .ok bs ∧
      parseOptions bs = .ok [.raw ⟨10, 2, List.replicate 14 0⟩] :=
  c1_option_roundtrip_amended _ (by decide)

/-- C2: message round trip.  For every NeighborAdvertisement whose
MarshalMessage succeeds (equivalently, whose target address is a
16-byte, non-IPv4-mapped IPv6 address), ParseMessage applied to the
marshaled bytes succeeds and returns a message equal to the input under
value equality. -/
theorem c2_message_roundtrip (na : NeighborAdvertisement) (bs : List Nat)
    (h : MarshalMessage na = .ok bs) : ParseMessage bs = .ok na := by
  obtain ⟨R, S, O, tgt⟩ := na
  have hc : checkIPv6 tgt = true := by
    by_contra hcn
    rw [Bool.not_eq_true] at hcn
    unfold MarshalMessage NeighborAdvertisement.marshalBinary at h
    simp [hcn] at h
  have hm := na_marshal_ok R S O tgt hc
  unfold MarshalMessage at h
  rw [hm] at h
  simp only [Except.ok.injEq] at h
  subst h
  have h16 : tgt.length = 16 := checkIPv6_length hc
  simp only [List.cons_append, List.nil_append]
  have h20 : (20:Nat) ≤ (((if R then (128:Nat) else 0) ||| (if S then 64 else 0) ||| (if O then 32 else 0)) :: 0 :: 0 :: 0 :: tgt : List Nat).length := by
    simp [h16]
  have hdrop : ((((if R then (128:Nat) else 0) ||| (if S then 64 else 0) ||| (if O then 32 else 0)) :: 0 :: 0 :: 0 :: tgt : List Nat).drop 4).take 16 = tgt := by
    rw [show (((if R then (128:Nat) else 0) ||| (if S then 64 else 0) ||| (if O then 32 else 0)) :: 0 :: 0 :: 0 :: tgt : List Nat).drop 4 = tgt from rfl,
      List.take_of_length_le (by omega)]
  have hu := na_unmarshal_ok (((if R then (128:Nat) else 0) ||| (if S then 64 else 0) ||| (if O then 32 else 0)) :: 0 :: 0 :: 0 :: tgt) h20 (by rw [hdrop]; exact hc)
  rw [hdrop] at hu
  unfold ParseMessage
  simp only [List.length_cons, h16, List.getD_cons_zero, List.drop_succ_cons, List.drop_zero]
  norm_num
  rw [hu]
  simp only [List.getD_cons_zero, Except.ok.injEq, NeighborAdvertisement.mk.injEq]
  refine ⟨?_, ?_, ?_, trivial⟩ <;> cases R <;> cases S <;> cases O <;> decide

/-- C2, witness: the round trip evaluated at a concrete
NeighborAdvertisement with Solicited and Override set. -/
theorem c2_message_roundtrip_witness :
    ParseMessage [136, 0, 0, 0, 96, 0, 0, 0,
        0xfe, 0x80, 0, 0, 0, 0, 0, 0, 0, 0, 0, 0, 0, 0, 0, 2] =
      .ok ⟨false, true, true,
        [0xfe, 0x80, 0, 0, 0, 0, 0, 0, 0, 0, 0, 0, 0, 0, 0, 2]⟩ :=
  c2_message_roundtrip _ _ (by decide)

/-- C3: evaluation at the failing input.  On the 8-byte buffer
[3, 2, 0, 0, 0, 0, 0, 0], whose option header declares 16 bytes,
parseOptions evaluates the slice expression b[0:16] past the capacity
of the buffer and panics instead of returning the InvalidOption error
the claim requires; the declared-length-zero buffer [3, 0] does return
an error. -/
theorem c3_parse_options_truncated_panics :
    parseOptions [3, 2, 0, 0, 0, 0, 0, 0] =
      .panics "runtime error: slice bounds out of range" ∧
    parseOptions [3, 0] = .error .errUnexpectedEOF := by
  decide

/-- C4, counterexample: the claim as stated is false.  The NDP types
133, 134 and 135 are in scope for the claim, but ParseMessage returns
the unrecognized-type error for them rather than dispatching to a
variant unmarshal: only type 136 is wired up in the code. -/
theorem c4_parse_message_dispatch_counterexample :
    ParseMessage [133, 0, 0, 0] = .error (.unrecognizedType 133) ∧
    ParseMessage [134, 0, 0, 0] = .error (.unrecognizedType 134) ∧
    ParseMessage [135, 0, 0, 0] = .error (.unrecognizedType 135) := by
  decide

/-- C4, amended: for every input of at least 4 bytes, ParseMessage
dispatches on the leading type byte: 136 passes bytes[4:] to
NeighborAdvertisement.UnmarshalBinary, and every other type byte -
including NDP types 133, 134 and 135 - yields the unrecognized-type
error. -/
theorem c4_parse_message_dispatch_amended (b : List Nat) (h4 : 4 ≤ b.length) :
    (b.getD 0 0 = 136 → ParseMessage b = NeighborAdvertisement.unmarshalBinary (b.drop 4)) ∧
    (b.getD 0 0 ≠ 136 → ParseMessage b = .error (.unrecognizedType (b.getD 0 0))) := by
  unfold ParseMessage
  have hn : ¬(b.length < 4) := by omega
  simp only [hn, if_false]
  constructor
  · intro ht
    rw [if_pos (show (b.getD 0 0 == 136) = true by simp only [beq_iff_eq]; exact ht)]
    cases NeighborAdvertisement.unmarshalBinary (b.drop 4) <;> rfl
  · intro ht
    rw [if_neg (show ¬((b.getD 0 0 == 136) = true) by simp only [beq_iff_eq]; exact ht)]

/-- C4, witness: the dispatch theorem evaluated on a type-136 buffer
and on a type-133 buffer. -/
theorem c4_parse_message_dispatch_amended_witness :
    (ParseMessage ([136, 0, 0, 0] ++ List.replicate 20 0) =
      NeighborAdvertisement.unmarshalBinary
        (([136, 0, 0, 0] ++ List.replicate 20 0).drop 4)) ∧
    ParseMessage [133, 1, 2, 3] = .error (.unrecognizedType 133) :=
  ⟨(c4_parse_message_dispatch_amended ([136, 0, 0, 0] ++ List.replicate 20 0)
      (by decide)).1 (by decide),
   (c4_parse_message_dispatch_amended [133, 1, 2, 3] (by decide)).2 (by decide)⟩

/-- C5: byte-exact NeighborAdvertisement encoding.  Marshaling the
message with Router, Solicited and Override set and target 2001:db8::1
produces exactly the 24 bytes 88 00 00 00 e0 00 00 00 followed by the
16 target bytes. -/
theorem c5_na_wire_bytes :
    MarshalMessage ⟨true, true, true,
        [0x20, 0x01, 0x0d, 0xb8, 0, 0, 0, 0, 0, 0, 0, 0, 0, 0, 0, 0x01]⟩ =
      .ok [0x88, 0x00, 0x00, 0x00, 0xe0, 0x00, 0x00, 0x00,
        0x20, 0x01, 0x0d, 0xb8, 0, 0, 0, 0, 0, 0, 0, 0, 0, 0, 0, 0x01] := by
  decide

/-- C6: NeighborAdvertisement target validation on both directions.
MarshalBinary fails whenever the target is not 16 bytes long or is
IPv4-mapped, and succeeds otherwise; UnmarshalBinary on a 20-byte-or-
longer input fails when bytes 4..19 are IPv4-mapped and succeeds
otherwise. -/
theorem c6_na_target_validation (na : NeighborAdvertisement) (b : List Nat) :
    ((na.TargetAddress.length ≠ 16 ∨ isIPv4Mapped na.TargetAddress = true) →
      ∃ e, na.marshalBinary = .error e) ∧
    (20 ≤ b.length → isIPv4Mapped ((b.drop 4).take 16) = true →
      ∃ e, NeighborAdvertisement.unmarshalBinary b = .error e) ∧
    (na.TargetAddress.length = 16 → isIPv4Mapped na.TargetAddress = false →
      ∃ bs, na.marshalBinary = .ok bs) ∧
    (20 ≤ b.length → isIPv4Mapped ((b.drop 4).take 16) = false →
      ∃ m, NeighborAdvertisement.unmarshalBinary b = .ok m) := by
  refine ⟨?_, ?_, ?_, ?_⟩
  · intro h
    have hc : checkIPv6 na.TargetAddress = false := by
      rw [checkIPv6_eq]
      rcases h with h | h
      · have : (na.TargetAddress.length == 16) = false := by simp [h]
        simp [this]
      · simp [h]
    unfold NeighborAdvertisement.marshalBinary
    simp only [hc]
    exact ⟨_, rfl⟩
  · intro h20 hm
    have hc : checkIPv6 ((b.drop 4).take 16) = false := by
      rw [checkIPv6_eq]
      simp [hm]
    unfold NeighborAdvertisement.unmarshalBinary
    have hnl : ¬(b.length < 20) := by omega
    simp only [hnl, if_false, hc]
    exact ⟨_, rfl⟩
  · intro hl hm
    have hc : checkIPv6 na.TargetAddress = true := (checkIPv6_true_iff _).mpr ⟨hl, hm⟩
    obtain ⟨R, S, O, tgt⟩ := na
    exact ⟨_, na_marshal_ok R S O tgt hc⟩
  · intro h20 hm
    have hlen : ((b.drop 4).take 16).length = 16 := by
      simp [List.length_take, List.length_drop]
      omega
    have hc : checkIPv6 ((b.drop 4).take 16) = true := (checkIPv6_true_iff _).mpr ⟨hlen, hm⟩
    exact ⟨_, na_unmarshal_ok b h20 hc⟩

/-- C6, witness: all four directions evaluated at concrete inputs - a
4-byte target, an IPv4-mapped wire target, a genuine IPv6 target and a
genuine IPv6 wire body. -/
theorem c6_na_target_validation_witness :
    (∃ e, NeighborAdvertisement.marshalBinary ⟨false, false, false, [1, 2, 3, 4]⟩ =
      .error e) ∧
    (∃ e, NeighborAdvertisement.unmarshalBinary
        (9 :: 9 :: 9 :: 9 :: (List.replicate 10 0 ++ [255, 255, 1, 2, 3, 4])) =
      .error e) ∧
    (∃ bs, NeighborAdvertisement.marshalBinary ⟨true, false, true, List.replicate 16 7⟩ =
      .ok bs) ∧
    (∃ m, NeighborAdvertisement.unmarshalBinary (List.replicate 20 5) = .ok m) :=
  ⟨(c6_na_target_validation ⟨false, false, false, [1, 2, 3, 4]⟩ []).1 (Or.inl (by decide)),
   (c6_na_target_validation ⟨false, false, false, [1, 2, 3, 4]⟩
      (9 :: 9 :: 9 :: 9 :: (List.replicate 10 0 ++ [255, 255, 1, 2, 3, 4]))).2.1
      (by decide) (by decide),
   (c6_na_target_validation ⟨true, false, true, List.replicate 16 7⟩ []).2.2.1
      (by decide) (by decide),
   (c6_na_target_validation ⟨false, false, false, []⟩ (List.replicate 20 5)).2.2.2
      (by decide) (by decide)⟩

/-- C7, counterexample: the claim as stated is false.  With Length = 32
and a 254-byte value the exact equation 2 + len(Value) == Length*8
holds, yet MarshalBinary fails: the Go expression int(u.Length * 8)
wraps to 0 in uint8 arithmetic. -/
theorem c7_raw_option_framing_counterexample :
    2 + (List.replicate 254 (0:Nat)).length = 32 * 8 ∧
    RawOption.marshalBinary ⟨0, 32, List.replicate 254 0⟩ = .error .errUnexpectedEOF := by
  decide

/-- C7, amended: RawOption.MarshalBinary succeeds if and only if
2 + len(Value) equals Length*8 reduced modulo 256 (the uint8 product),
and on success it returns exactly that many bytes: the Type byte, the
Length byte, then Value. -/
theorem c7_raw_option_framing_amended (u : RawOption) (hL : u.Length ≤ 255) :
    (u.marshalBinary = .ok (u.«Type» :: u.Length :: u.Value) ↔
      2 + u.Value.length = u.Length * 8 % 256) ∧
    (2 + u.Value.length ≠ u.Length * 8 % 256 →
      u.marshalBinary = .error .errUnexpectedEOF) ∧
    (∀ bs, u.marshalBinary = .ok bs →
      bs = u.«Type» :: u.Length :: u.Value ∧ bs.length = u.Length * 8 % 256) := by
  obtain ⟨t, L, v⟩ := u
  by_cases h : 2 + v.length = L * 8 % 256
  · have hok := raw_marshal_ok t L v h
    refine ⟨⟨fun _ => h, fun _ => hok⟩, fun hne => absurd h hne, fun bs hbs => ?_⟩
    rw [hok] at hbs
    obtain rfl : t :: L :: v = bs := by
      simpa using hbs
    refine ⟨rfl, ?_⟩
    simp
    omega
  · have herr : RawOption.marshalBinary ⟨t, L, v⟩ = .error .errUnexpectedEOF := by
      unfold RawOption.marshalBinary
      dsimp only
      rw [if_pos (by simp only [bne_iff_ne]; omega)]
    refine ⟨⟨fun hok => ?_, fun h2 => absurd h2 h⟩, fun _ => herr, fun bs hbs => ?_⟩
    · rw [herr] at hok
      exact absurd hok (by simp)
    · rw [herr] at hbs
      exact absurd hbs (by simp)

/-- C7, witness: the amended framing equation evaluated at a RawOption
with length 2 and a 14-byte value. -/
theorem c7_raw_option_framing_amended_witness :
    ((RawOption.marshalBinary ⟨10, 2, List.replicate 14 0⟩ =
        .ok (10 :: 2 :: List.replicate 14 0) ↔
      2 + (List.replicate 14 (0:Nat)).length = 2 * 8 % 256) ∧
     (2 + (List.replicate 14 (0:Nat)).length ≠ 2 * 8 % 256 →
      RawOption.marshalBinary ⟨10, 2, List.replicate 14 0⟩ = .error .errUnexpectedEOF) ∧
     (∀ bs, RawOption.marshalBinary ⟨10, 2, List.replicate 14 0⟩ = .ok bs →
      bs = 10 :: 2 :: List.replicate 14 0 ∧ bs.length = 2 * 8 % 256)) :=
  c7_raw_option_framing_amended ⟨10, 2, List.replicate 14 0⟩ (by decide)

/-- C8, counterexample: the claim as stated is false.  Two 20-byte
bodies that agree on the flag bits and on the target bytes (here an
IPv4-mapped target) and differ only in reserved bits both fail to
unmarshal, while the claim asserts success for every such pair. -/
theorem c8_reserved_bits_counterexample :
    ((0:Nat) &&& 128 = 31 &&& 128 ∧ (0:Nat) &&& 64 = 31 &&& 64 ∧
      (0:Nat) &&& 32 = 31 &&& 32) ∧
    List.drop 4 (0 :: 0 :: 0 :: 0 :: (List.replicate 10 0 ++ [255, 255, 8, 8, 8, 8])) =
      List.drop 4 (31 :: 1 :: 2 :: 3 :: (List.replicate 10 0 ++ [255, 255, 8, 8, 8, 8])) ∧
    NeighborAdvertisement.unmarshalBinary
        (0 :: 0 :: 0 :: 0 :: (List.replicate 10 0 ++ [255, 255, 8, 8, 8, 8])) =
      .error (.invalidIPv6 (List.replicate 10 0 ++ [255, 255, 8, 8, 8, 8])) ∧
    NeighborAdvertisement.unmarshalBinary
        (31 :: 1 :: 2 :: 3 :: (List.replicate 10 0 ++ [255, 255, 8, 8, 8, 8])) =
      .error (.invalidIPv6 (List.replicate 10 0 ++ [255, 255, 8, 8, 8, 8])) := by
  decide

/-- C8, amended: for any two 20-byte NeighborAdvertisement bodies that
agree on flag bits 7-5 of byte 0 and on bytes 4..19, where the common
target is not IPv4-mapped, UnmarshalBinary succeeds on both and
produces equal values - reserved bits (bits 4-0 of byte 0 and bytes
1..3) never affect the result. -/
theorem c8_reserved_bits_amended (b1 b2 : List Nat) (h1 : b1.length = 20) (h2 : b2.length = 20)
    (hf1 : b1.getD 0 0 &&& 128 = b2.getD 0 0 &&& 128)
    (hf2 : b1.getD 0 0 &&& 64 = b2.getD 0 0 &&& 64)
    (hf3 : b1.getD 0 0 &&& 32 = b2.getD 0 0 &&& 32)
    (ht : b1.drop 4 = b2.drop 4)
    (hv : isIPv4Mapped ((b1.drop 4).take 16) = false) :
    ∃ na, NeighborAdvertisement.unmarshalBinary b1 = .ok na ∧
      NeighborAdvertisement.unmarshalBinary b2 = .ok na := by
  have hlen : ((b1.drop 4).take 16).length = 16 := by
    simp [List.length_take, List.length_drop]
    omega
  have hc1 : checkIPv6 ((b1.drop 4).take 16) = true := (checkIPv6_true_iff _).mpr ⟨hlen, hv⟩
  have hc2 : checkIPv6 ((b2.drop 4).take 16) = true := by rw [← ht]; exact hc1
  rw [na_unmarshal_ok b1 (by omega) hc1, na_unmarshal_ok b2 (by omega) hc2]
  refine ⟨_, rfl, ?_⟩
  rw [← ht, ← hf1, ← hf2, ← hf3]

/-- C8, witness: two concrete bodies differing in all reserved bits
parse to the same NeighborAdvertisement. -/
theorem c8_reserved_bits_amended_witness :
    ∃ na, NeighborAdvertisement.unmarshalBinary
        (0 :: 0 :: 0 :: 0 :: List.replicate 16 9) = .ok na ∧
      NeighborAdvertisement.unmarshalBinary
        (31 :: 7 :: 7 :: 7 :: List.replicate 16 9) = .ok na :=
  c8_reserved_bits_amended _ _ (by decide) (by decide) (by decide) (by decide)
    (by decide) (by decide) (by decide)

/-- C9: link-local address selection.  linkLocalAddr returns the first
interface address that is a 16-byte, non-IPv4-mapped IPv6 address in
fe80::/10, paired with the interface name as zone; when no address
qualifies it fails with the no-link-local-address error and Dial fails
for every outcome of the subsequent socket operations. -/
theorem c9_link_local_selection (name : String) (idx : Int) (addrs : List GoNetAddr)
    (hb : addrBytesOK addrs = true) :
    (∀ ip, addrs.find? qualifiesLinkLocal = some (.ipNet ip) →
      linkLocalAddr name addrs = .ok (ip, name)) ∧
    (addrs.find? qualifiesLinkLocal = none →
      linkLocalAddr name addrs = .error (.noLinkLocalAddr name) ∧
      ∀ le je ce, ∃ e, Dial name idx addrs le je ce = .error e) := by
  induction addrs with
  | nil =>
    refine ⟨fun ip h => by simp [List.find?] at h, fun h => ⟨rfl, fun le je ce => ⟨_, rfl⟩⟩⟩
  | cons a rest ih =>
    have hb_pair : goNetAddrBytesOK a = true ∧ addrBytesOK rest = true := by
      unfold addrBytesOK at hb
      rw [List.all_cons, Bool.and_eq_true] at hb
      exact hb
    obtain ⟨ih1, ih2⟩ := ih hb_pair.2
    cases a with
    | other =>
      have hstep : linkLocalAddr name (GoNetAddr.other :: rest) =
          linkLocalAddr name rest := rfl
      have hfind : (GoNetAddr.other :: rest).find? qualifiesLinkLocal =
          rest.find? qualifiesLinkLocal :=
        List.find?_cons_of_neg _ (by simp [qualifiesLinkLocal])
      constructor
      · intro ip h
        rw [hfind] at h
        rw [hstep]
        exact ih1 ip h
      · intro h
        rw [hfind] at h
        obtain ⟨herr, _⟩ := ih2 h
        refine ⟨by rw [hstep]; exact herr, fun le je ce => ?_⟩
        have hllerr : linkLocalAddr name (GoNetAddr.other :: rest) =
            .error (.noLinkLocalAddr name) := by rw [hstep]; exact herr
        unfold Dial
        rw [hllerr]
        exact ⟨_, rfl⟩
    | ipNet ip =>
      have hipb : ip.all (fun x => decide (x < 256)) = true := hb_pair.1
      by_cases hq : qualifiesLinkLocal (.ipNet ip) = true
      · have hfind : (GoNetAddr.ipNet ip :: rest).find? qualifiesLinkLocal =
            some (.ipNet ip) := List.find?_cons_of_pos _ hq
        obtain ⟨hc, hcont⟩ := (qualifies_iff_guard ip hipb).mp hq
        have hll : linkLocalAddr name (GoNetAddr.ipNet ip :: rest) = .ok (ip, name) := by
          rw [linkLocalAddr]
          simp [hc, hcont]
        constructor
        · intro ip2 h
          rw [hfind] at h
          simp only [Option.some.injEq, GoNetAddr.ipNet.injEq] at h
          rw [← h]
          exact hll
        · intro h
          rw [hfind] at h
          exact absurd h (by simp)
      · have hfind : (GoNetAddr.ipNet ip :: rest).find? qualifiesLinkLocal =
            rest.find? qualifiesLinkLocal :=
          List.find?_cons_of_neg _ (by simpa using hq)
        have hstep : linkLocalAddr name (GoNetAddr.ipNet ip :: rest) =
            linkLocalAddr name rest := by
          rw [linkLocalAddr]
          by_cases hc : checkIPv6 ip = true
          · have hcont : ipNetContains linkLocalPrefixIP linkLocalPrefixMask ip = false := by
              cases hcont2 : ipNetContains linkLocalPrefixIP linkLocalPrefixMask ip
              · rfl
              · exact absurd ((qualifies_iff_guard ip hipb).mpr ⟨hc, hcont2⟩) hq
            simp [hc, hcont]
          · have hc2 : checkIPv6 ip = false := by
              cases hc3 : checkIPv6 ip
              · rfl
              · exact absurd hc3 hc
            simp [hc2]
        constructor
        · intro ip2 h
          rw [hfind] at h
          rw [hstep]
          exact ih1 ip2 h
        · intro h
          rw [hfind] at h
          obtain ⟨herr, _⟩ := ih2 h
          refine ⟨by rw [hstep]; exact herr, fun le je ce => ?_⟩
          have hllerr : linkLocalAddr name (GoNetAddr.ipNet ip :: rest) =
              .error (.noLinkLocalAddr name) := by rw [hstep]; exact herr
          unfold Dial
          rw [hllerr]
          exact ⟨_, rfl⟩

/-- C9, witness: selection evaluated on a concrete address list with a
match in third position, and on a list with no match. -/
theorem c9_link_local_selection_witness :
    linkLocalAddr "eth0" [.other, .ipNet [1, 2, 3, 4],
      .ipNet [0xfe, 0x80, 0, 0, 0, 0, 0, 0, 0, 0, 0, 0, 0, 0, 0, 1]] =
      .ok ([0xfe, 0x80, 0, 0, 0, 0, 0, 0, 0, 0, 0, 0, 0, 0, 0, 1], "eth0") ∧
    (linkLocalAddr "eth1" [.ipNet [10, 0, 0, 1]] = .error (.noLinkLocalAddr "eth1") ∧
      ∃ e, Dial "eth1" 7 [.ipNet [10, 0, 0, 1]] none none none = .error e) :=
  ⟨(c9_link_local_selection "eth0" 0 _ (by decide)).1 _ (by decide),
   by
     have h := (c9_link_local_selection "eth1" 7 [.ipNet [10, 0, 0, 1]]
       (by decide)).2 (by decide)
     exact ⟨h.1, h.2 none none none⟩⟩

/-- C10: evaluation at the failing input.  RawOption.UnmarshalBinary is
not total: on [0, 0] (declared length 0) the uint8 product wraps to 0,
l becomes -2, and make([]byte, l) panics; the same happens for any
length byte divisible by 32, such as 32 with 254 trailing bytes. -/
theorem c10_raw_unmarshal_panics :
    RawOption.unmarshalBinary [0, 0] =
      .panics "runtime error: makeslice: len out of range" ∧
    RawOption.unmarshalBinary (0 :: 32 :: List.replicate 254 0) =
      .panics "runtime error: makeslice: len out of range" := by
  decide

end Ndp
